import Mathlib

/- Shallow embedding of the StudentTrackr library-attendance application
   (src/app.py together with the Firestore data layer src/models.py):
   the period schedule resolver, the check-in eligibility rules, the
   public check-in route, the capacity check, period memos, warnings,
   and bulk deletion of attendance records by cutoff date.

   Modelling conventions:
   * CSV rows become Lean structures with the same fields; the CSV files
     on disk become explicit `List` states threaded through functions.
   * Wall-clock time: the code reads `datetime.now(KST)` and uses it at
     three granularities, which we carry explicitly: seconds since
     midnight for the period table and timestamp formatting, the current
     calendar date for the weekly window and the per-day capacity count,
     and an abstract linear instant for warning-expiry comparisons.
   * `strptime(s, "%Y-%m-%d")` is embedded by `parseYMD` following the
     CPython `_strptime` regexes: exactly four digits for %Y, one or two
     digits for %m and %d, the whole string consumed, and the usual
     Gregorian validity checks (digits are modelled as ASCII digits).
   * A missing CSV file behaves exactly like an empty record list in the
     functions modelled here, so file existence is not modelled
     separately. -/

/-- Test for the ASCII space character, as used by the Python calls
`s.split(' ')`, `' ' in s` and `s.replace(' ', '')`. -/
def isSpaceChar (c : Char) : Bool := c == (' ')

/-- Embeds Python `s.split(' ')[0]`: the prefix of `s` before the first
space (the whole of `s` when it has no space). -/
def datePart (s : String) : String :=
  String.mk ((s.toList).takeWhile (fun c => !(isSpaceChar c)))

/-- Embeds the Python membership test of a space character in s. -/
def containsSpace (s : String) : Bool := (s.toList).any isSpaceChar

/-- Embeds the Python replace call that removes every space from s. -/
def removeSpaces (s : String) : String :=
  String.mk ((s.toList).filter (fun c => !(isSpaceChar c)))

/-- Embeds Python `s.startswith('3')`. -/
def startsWithThree (s : String) : Bool :=
  match s.toList with
  | [] => false
  | c :: _ => c == ('3')

/-- Whitespace test used to embed Python `s.strip()`. -/
def isStripChar (c : Char) : Bool :=
  c == (' ') || c == ('\t') || c == ('\n') || c == ('\r')

/-- Embeds Python `s.strip()`: leading and trailing whitespace removed. -/
def pyStrip (s : String) : String :=
  String.mk ((((s.toList).dropWhile isStripChar).reverse.dropWhile isStripChar).reverse)

/-- Splits a character list at every occurrence of `sep`, keeping empty
segments, as Python `s.split(sep)` does for a one-character separator. -/
def splitOnChar (sep : Char) : List Char → List (List Char)
  | [] => [[]]
  | c :: cs =>
    match splitOnChar sep cs with
    | [] => if c == sep then [[], []] else [[c]]
    | h :: t => if c == sep then [] :: h :: t else (c :: h) :: t

/-- Numeric value of a list of ASCII digit characters. -/
def natOfDigits (l : List Char) : Nat :=
  l.foldl (fun n c => n * 10 + (c.toNat - 48)) 0

/-- Gregorian leap-year rule, as validated by the Python `datetime` constructor. -/
def isLeapYear (y : Nat) : Bool :=
  y % 4 == 0 && (y % 100 != 0 || y % 400 == 0)

/-- Number of days in month `m` of year `y`. -/
def daysInMonth (y m : Nat) : Nat :=
  if m == 2 then (if isLeapYear y then 29 else 28)
  else if m == 4 || m == 6 || m == 9 || m == 11 then 30
  else 31

/-- Embeds `datetime.strptime` with the %Y-%m-%d format (CPython `_strptime`):
%Y is exactly four digits, %m and %d are one or two digits, the dashes
are literal, the whole string must be consumed, and the resulting
(year, month, day) must be a valid proleptic-Gregorian date with
year at least `datetime.MINYEAR = 1`.  Returns `none` on `ValueError`. -/
def parseYMD (s : String) : Option (Nat × Nat × Nat) :=
  match splitOnChar ('-') (s.toList) with
  | [ys, ms, ds] =>
    if ys.length == 4 && ys.all Char.isDigit
        && (ms.length == 1 || ms.length == 2) && ms.all Char.isDigit
        && (ds.length == 1 || ds.length == 2) && ds.all Char.isDigit then
      let y := natOfDigits ys
      let m := natOfDigits ms
      let d := natOfDigits ds
      if 1 ≤ y ∧ 1 ≤ m ∧ m ≤ 12 ∧ 1 ≤ d ∧ d ≤ daysInMonth y m then
        some (y, m, d)
      else none
    else none
  | _ => none

/-- Days contributed by the full years before year `y`
(proleptic Gregorian, matching Python `date.toordinal`). -/
def daysBeforeYear (y : Nat) : Nat :=
  (y - 1) * 365 + (y - 1) / 4 - (y - 1) / 100 + (y - 1) / 400

/-- Days contributed by the full months of year `y` before month `m`. -/
def daysBeforeMonth (y m : Nat) : Nat :=
  (List.range (m - 1)).foldl (fun acc i => acc + daysInMonth y (i + 1)) 0

/-- Python `date(y, m, d).toordinal()`: day number with 0001-01-01 = 1. -/
def toOrdinal (ymd : Nat × Nat × Nat) : Nat :=
  daysBeforeYear ymd.1 + daysBeforeMonth ymd.1 ymd.2.1 + ymd.2.2

/-- Python `weekday()` for a day given by its ordinal:
0 is Monday, ..., 6 is Sunday. -/
def weekdayOf (ord : Nat) : Nat := (ord + 6) % 7

/-- Decimal rendering of a natural number padded to two digits,
as `strftime` does for %m, %d, %H, %M, %S. -/
def pad2 (n : Nat) : String :=
  if n < 10 then ("0") ++ toString n else toString n

/-- Decimal rendering of a year padded to four digits (`strftime` %Y). -/
def pad4 (n : Nat) : String :=
  if n < 10 then ("000") ++ toString n
  else if n < 100 then ("00") ++ toString n
  else if n < 1000 then ("0") ++ toString n
  else toString n

/-- The %Y-%m-%d rendering of a (year, month, day) triple, as `strftime` produces it. -/
def formatYMD (ymd : Nat × Nat × Nat) : String :=
  pad4 ymd.1 ++ ("-") ++ pad2 ymd.2.1 ++ ("-") ++ pad2 ymd.2.2

/-- The %H:%M:%S rendering of a time of day given in seconds, as `strftime` produces it. -/
def formatHMS (sec : Nat) : String :=
  pad2 (sec / 3600) ++ (":") ++ pad2 (sec % 3600 / 60) ++ (":") ++ pad2 (sec % 60)

/- ------------------------------------------------------------------
   Period schedule (app.py PERIOD_SCHEDULE and get_current_period)
   ------------------------------------------------------------------ -/

/-- app.py `PERIOD_SCHEDULE`: entries (period, start_h, start_m, end_h,
end_m), in insertion order. -/
def PERIOD_SCHEDULE : List (Nat × Nat × Nat × Nat × Nat) :=
  [(1, 7, 50, 9, 15),
   (2, 9, 15, 10, 40),
   (3, 10, 40, 12, 5),
   (4, 12, 5, 12, 30),
   (5, 12, 30, 14, 25),
   (6, 14, 25, 15, 50)]

/-- Minutes since midnight of an (hour, minute) time of day; comparing
these equals the Python comparison of `time` values at the whole-minute
boundaries used by the schedule. -/
def toMin (h m : Nat) : Nat := h * 60 + m

/-- Loop body of app.py `get_current_period`: scan the schedule in order
for the half-open interval containing `now`; period 4 is excluded. -/
def findPeriod (now : Nat) : List (Nat × Nat × Nat × Nat × Nat) → Nat
  | [] => 0
  | (p, sh, sm, eh, em) :: rest =>
    if toMin sh sm ≤ now ∧ now < toMin eh em then
      if p == 4 then 0 else p
    else findPeriod now rest

/-- app.py `get_current_period`, over the time of day in minutes since
midnight (the schedule bounds are whole minutes, so second precision
cannot change which interval contains the current time). -/
def get_current_period (nowMin : Nat) : Nat :=
  findPeriod nowMin PERIOD_SCHEDULE

/- ------------------------------------------------------------------
   Data model: attendance rows, warnings, memos, request environment
   ------------------------------------------------------------------ -/

/-- One row of the attendance CSV (`attendance.csv`), with the fields
출석일 (timestamp string), 교시 (period label), 학번 (student id),
이름 (name), 공강좌석번호 (seat). -/
structure AttRow where
  attendDate : String
  periodText : String
  studentId : String
  name : String
  seat : String
deriving DecidableEq, Repr

/-- One warning document of the `warnings` collection, with the fields
written by models.py `add_warning`. -/
structure WarningRec where
  student_id : String
  student_name : String
  warning_date : Int
  expiry_date : Int
  reason : String
  is_active : Bool
deriving DecidableEq, Repr

/-- One row of the period-memo CSV (`period_memos.csv`): 날짜 (date),
교시 (period), 메모 (memo text). -/
structure MemoRow where
  date : String
  period : String
  memo : String
deriving DecidableEq, Repr

/-- The per-request environment of a check-in: the current wall-clock
time (seconds since midnight, the current calendar date, and the same
instant on an abstract linear timeline used for warning expiries), the
admin flag of the session, the student roster (`students.xlsx`, a mapping
from 학번 to (이름, 공강좌석번호)), and the warning store. -/
structure Env where
  nowSec : Nat
  today : Nat × Nat × Nat
  nowInstant : Int
  sessionAdmin : Bool
  roster : String → Option (String × String)
  warnings : List WarningRec

/-- The ordinal day number of the current date for an environment. -/
def todayOrd (env : Env) : Nat := toOrdinal env.today

/-- The ordinal of the Monday of the current week as computed in `check_attendance`:
`now - timedelta(days=now.weekday())` with the time zeroed out. -/
def mondayOrdOf (env : Env) : Nat := todayOrd env - weekdayOf (todayOrd env)

/- ------------------------------------------------------------------
   Warnings (models.py is_student_warned)
   ------------------------------------------------------------------ -/

/-- models.py `is_student_warned`: the first warning with matching
student id, expiry strictly in the future, and the active flag set,
as a (found, document) pair. -/
def is_student_warned (warnings : List WarningRec) (now : Int) (student_id : String) :
    Bool × Option WarningRec :=
  match warnings.find? (fun w =>
      w.student_id == student_id && decide (now < w.expiry_date) && w.is_active) with
  | some w => (true, some w)
  | none => (false, none)

/- ------------------------------------------------------------------
   Eligibility check (app.py check_attendance)
   ------------------------------------------------------------------ -/

/-- Result of app.py `check_attendance`: the tuple
(already_attended, last_attendance_date, is_warned, warning_info). -/
structure CheckResult where
  already_attended : Bool
  last_attendance_date : Option String
  is_warned : Bool
  warning_info : Option WarningRec
deriving DecidableEq, Repr

/-- State of the record scan inside `check_attendance`: the pair of
`latest_attendance_datetime` (as an ordinal) and `last_attendance_date`
(the date string), which the code always updates together, plus
`weekly_attendance_count`. -/
structure ScanSt where
  latest : Option (Nat × String)
  weekly : Nat
deriving DecidableEq, Repr

/-- One iteration of the scan in `check_attendance`: rows of other
students and rows whose date part fails to parse are skipped; otherwise
the latest attendance is updated on a strictly greater date, and the
weekly count is incremented for dates on or after the Monday of the current week
whose weekday is Monday..Friday. -/
def scanRow (student_id : String) (mondayOrd : Nat) (st : ScanSt) (r : AttRow) : ScanSt :=
  if r.studentId == student_id then
    match parseYMD (datePart r.attendDate) with
    | none => st
    | some ymd =>
      let o := toOrdinal ymd
      let latest' :=
        match st.latest with
        | none => some (o, datePart r.attendDate)
        | some (lo, ls) => if lo < o then some (o, datePart r.attendDate) else some (lo, ls)
      let weekly' :=
        if mondayOrd ≤ o ∧ weekdayOf o ≤ 4 then st.weekly + 1 else st.weekly
      ⟨latest', weekly'⟩
  else st

/-- app.py `check_attendance(student_id, admin_override)`: admin
override and ids starting with "3" are always eligible; an in-effect
warning yields the warned verdict; otherwise the attendance store is
scanned and the weekly verdict is "already attended" exactly when the
Mon-Fri count of this week is at least 1 and the session admin flag is
unset.  A missing CSV file behaves like an empty store. -/
def check_attendance (env : Env) (store : List AttRow) (student_id : String)
    (admin_override : Bool) : CheckResult :=
  let w := is_student_warned env.warnings env.nowInstant student_id
  if admin_override then ⟨false, none, false, none⟩
  else if startsWithThree student_id then ⟨false, none, false, none⟩
  else if w.1 then ⟨false, none, true, w.2⟩
  else
    let st := store.foldl (scanRow student_id (mondayOrdOf env)) ⟨none, 0⟩
    if st.weekly ≥ 1 ∧ env.sessionAdmin = false then
      ⟨true, st.latest.map (fun p => p.2), false, none⟩
    else
      ⟨false, st.latest.map (fun p => p.2), false, none⟩

/- ------------------------------------------------------------------
   Saving and counting (app.py save_attendance,
   get_current_period_attendance_count)
   ------------------------------------------------------------------ -/

/-- Period label written by `save_attendance`: "N교시" for an active
period, the out-of-period label otherwise. -/
def periodLabel (p : Nat) : String :=
  if p > 0 then toString p ++ ("교시") else ("시간 외")

/-- app.py `save_attendance` (successful write path): unconditionally
appends one row stamped with the current timestamp and the label of the
period resolved at save time. -/
def save_attendance (env : Env) (store : List AttRow) (student_id name seat : String) :
    List AttRow :=
  let period := get_current_period (env.nowSec / 60)
  let row : AttRow :=
    ⟨formatYMD env.today ++ (" ") ++ formatHMS env.nowSec,
     periodLabel period, student_id, name, seat⟩
  store ++ [row]

/-- app.py `get_current_period_attendance_count`: 0 when no period is
active, otherwise the number of stored rows whose date part equals
the current date and whose period label is the label of the current period. -/
def get_current_period_attendance_count (env : Env) (store : List AttRow) : Nat :=
  let current_period := get_current_period (env.nowSec / 60)
  if current_period == 0 then 0
  else
    (store.filter (fun r =>
        datePart r.attendDate == formatYMD env.today
          && r.periodText == periodLabel current_period)).length

/- ------------------------------------------------------------------
   The public check-in route (app.py attendance, POST branch)
   ------------------------------------------------------------------ -/

/-- Outcome of a POST to the public check-in form, one constructor per
flash/redirect branch of app.py `attendance`. -/
inductive PostResult where
  | noActivePeriod
  | capacityExceeded
  | unknownId
  | nameMismatch
  | alreadyAttendedThisWeek
  | saved
deriving DecidableEq, Repr

/-- app.py `attendance` (POST branch): reject when no period is active;
reject when the current period already has `MAX_CAPACITY = 35`
attendees; validate the (stripped) student id against the roster and
the supplied name against the roster name ignoring spaces; reject as
"already attended this week" when `check_attendance` (override false)
says so; otherwise persist the record. -/
def attendance_post (env : Env) (store : List AttRow) (student_id_form name_form : String) :
    PostResult × List AttRow :=
  let current_period := get_current_period (env.nowSec / 60)
  if current_period == 0 then (PostResult.noActivePeriod, store)
  else if get_current_period_attendance_count env store ≥ 35 then
    (PostResult.capacityExceeded, store)
  else
    let student_id := pyStrip student_id_form
    let name := pyStrip name_form
    match env.roster student_id with
    | none => (PostResult.unknownId, store)
    | some (rosterName, seat) =>
      if removeSpaces rosterName ≠ removeSpaces name then (PostResult.nameMismatch, store)
      else if (check_attendance env store student_id false).already_attended then
        (PostResult.alreadyAttendedThisWeek, store)
      else (PostResult.saved, save_attendance env store student_id name seat)

/- ------------------------------------------------------------------
   Period memos (app.py save_period_memo / get_period_memo)
   ------------------------------------------------------------------ -/

/-- app.py `save_period_memo`: the first stored row with the same date
and period gets its memo text replaced; when none matches, a new row is
appended (a missing memo file likewise yields the single new row). -/
def save_period_memo : List MemoRow → String → String → String → List MemoRow
  | [], date, period, text => [⟨date, period, text⟩]
  | r :: rs, date, period, text =>
    if r.date == date && r.period == period then ⟨r.date, r.period, text⟩ :: rs
    else r :: save_period_memo rs date period text

/-- app.py `get_period_memo`: the memo text of the first row with the
given date and period, or the empty string. -/
def get_period_memo : List MemoRow → String → String → String
  | [], _, _ => ("")
  | r :: rs, date, period =>
    if r.date == date && r.period == period then r.memo
    else get_period_memo rs date period

/-- The stored memo rows for one (date, period) pair. -/
def memoRowsFor (rows : List MemoRow) (date period : String) : List MemoRow :=
  rows.filter (fun r => r.date == date && r.period == period)

/- ------------------------------------------------------------------
   Document-store insert (models.py add_attendance)
   ------------------------------------------------------------------ -/

/-- One document of the Firestore `attendances` collection, as written
by models.py `add_attendance`. -/
structure FsAttRecord where
  student_id : String
  name : String
  seat : String
  period : String
  date : Int
deriving DecidableEq, Repr

/-- models.py `add_attendance`: when a document with the same student
id and period label dated inside today already exists, nothing is
inserted and no id is returned; otherwise the new record is added (its
id modelled by its index). -/
def add_attendance (fsStore : List FsAttRecord) (nowInstant todayStart todayEnd : Int)
    (student_id name seat period_text : String) : Option Nat × List FsAttRecord :=
  if fsStore.any (fun r =>
      r.student_id == student_id && r.period == period_text
        && decide (todayStart ≤ r.date) && decide (r.date ≤ todayEnd)) then
    (none, fsStore)
  else
    (some fsStore.length,
     fsStore ++ [⟨student_id, name, seat, period_text, nowInstant⟩])

/- ------------------------------------------------------------------
   Bulk deletion by cutoff date (app.py delete_before_date)
   ------------------------------------------------------------------ -/

/-- Classification loop of `delete_before_date`: rows whose timestamp
contains a space have the part before the space parsed without any
exception handler, so a parse failure there raises and aborts the whole
request (`none`); rows without a space that fail to parse are kept;
parsed rows are deleted exactly when strictly before the cutoff. -/
def classify_records (cutoffOrd : Nat) : List AttRow → Option (List AttRow × List AttRow)
  | [] => some ([], [])
  | r :: rest =>
    if containsSpace r.attendDate then
      match parseYMD (datePart r.attendDate) with
      | none => none
      | some ymd =>
        match classify_records cutoffOrd rest with
        | none => none
        | some (dels, keeps) =>
          if toOrdinal ymd < cutoffOrd then some (r :: dels, keeps)
          else some (dels, r :: keeps)
    else
      match parseYMD r.attendDate with
      | none =>
        match classify_records cutoffOrd rest with
        | none => none
        | some (dels, keeps) => some (dels, r :: keeps)
      | some ymd =>
        match classify_records cutoffOrd rest with
        | none => none
        | some (dels, keeps) =>
          if toOrdinal ymd < cutoffOrd then some (r :: dels, keeps)
          else some (dels, r :: keeps)

/-- app.py `delete_before_date` (POST branch) as a store transformer:
an unparseable form date, or an exception while classifying, leaves the
store untouched (the files are only rewritten after the loop finishes);
otherwise only the records classified as kept remain. -/
def delete_before_date (dateStr : String) (store : List AttRow) : List AttRow :=
  match parseYMD dateStr with
  | none => store
  | some cutoff =>
    match classify_records (toOrdinal cutoff) store with
    | none => store
    | some p => p.2

/- ------------------------------------------------------------------
   Concrete fixtures used by witnesses and counterexamples
   ------------------------------------------------------------------ -/

/-- A concrete roster: students 3123 (Kim, seat A12) and 1234
(Lee, seat B1). -/
def cRoster : String → Option (String × String) := fun s =>
  if s == ("3123") then some (("Kim"), ("A12"))
  else if s == ("1234") then some (("Lee"), ("B1"))
  else none

/-- A concrete request environment: Friday 2025-05-16 at 10:00:00
(inside period 2), public session (admin flag unset), no warnings. -/
def cEnv : Env :=
  { nowSec := 36000
    today := (2025, 5, 16)
    nowInstant := 100
    sessionAdmin := false
    roster := cRoster
    warnings := [] }

/-- The same request environment with the session admin flag set. -/
def cEnvAdmin : Env := { cEnv with sessionAdmin := true }

/-- A stored attendance row of student 3123 from Monday 2025-05-12
of the same week. -/
def cRow3123 : AttRow :=
  ⟨("2025-05-12 09:00:00"), ("2교시"), ("3123"), ("Kim"), ("A12")⟩

/-- A stored attendance row of student 1234 from Monday 2025-05-12
of the same week. -/
def cRow1234 : AttRow :=
  ⟨("2025-05-12 09:00:00"), ("2교시"), ("1234"), ("Lee"), ("B1")⟩

/-- A concrete warning for student 1234, active and unexpired at the
instant of `cEnv`. -/
def cWarn1234 : WarningRec :=
  ⟨("1234"), ("Lee"), 0, 1000, ("rule violation"), true⟩

/-- A stored attendance row whose timestamp is malformed: no space and
not parseable as YYYY-MM-DD. -/
def cBadRow : AttRow :=
  ⟨("oops"), ("1교시"), ("1234"), ("Lee"), ("B1")⟩

/- ------------------------------------------------------------------
   Theorems
   ------------------------------------------------------------------ -/

/-- C5: an identifier with the distinguished leading digit "3" makes
the eligibility check (override false) return the fully eligible tuple,
whatever the attendance history and the warning store contain: both the
weekly-limit check and the active-warning check are bypassed. -/
theorem digit_three_always_eligible (env : Env) (store : List AttRow) (sid : String)
    (h3 : startsWithThree sid = true) :
    check_attendance env store sid false = ⟨false, none, false, none⟩ := by
  simp [check_attendance, h3]

/-- Witness for `digit_three_always_eligible`: student 3123, with an
attendance record from this very week and an in-effect warning, is
still reported eligible. -/
theorem digit_three_always_eligible_witness :
    check_attendance { cEnv with warnings := [{ cWarn1234 with student_id := ("3123") }] }
        [cRow3123] ("3123") false = ⟨false, none, false, none⟩ :=
  digit_three_always_eligible _ _ _ (by decide)

/-- C3: the public check-in POST is rejected outright when the resolved
current period is 0, and rejected with the capacity reason — leaving
the store unchanged in both cases — when at least 35 stored records
carry the current date and the label of the current period. -/
theorem no_period_and_capacity_reject (env : Env) (store : List AttRow)
    (sidF nameF : String)
    (h : get_current_period (env.nowSec / 60) = 0
        ∨ 35 ≤ get_current_period_attendance_count env store) :
    attendance_post env store sidF nameF =
      (if get_current_period (env.nowSec / 60) = 0 then (PostResult.noActivePeriod, store)
       else (PostResult.capacityExceeded, store)) := by
  rcases h with h | h
  · simp [attendance_post, h]
  · by_cases hcp : get_current_period (env.nowSec / 60) = 0
    · simp [attendance_post, hcp]
    · simp [attendance_post, hcp, h]

/-- Witness for `no_period_and_capacity_reject`: during the excluded
fourth period (12:10) any submission is rejected with the
no-active-period reason and the store is unchanged. -/
theorem no_period_and_capacity_reject_witness :
    attendance_post { cEnv with nowSec := 43800 } [cRow1234] ("1234") ("Lee")
      = (PostResult.noActivePeriod, [cRow1234]) := by
  have h := no_period_and_capacity_reject { cEnv with nowSec := 43800 } [cRow1234]
    ("1234") ("Lee") (Or.inl (by decide))
  simpa using h

/-- C9: the weekly-limit verdict reads the session admin flag, an input
outside the (identifier, override) interface: with the admin flag set,
`check_attendance` with override false never reports "already attended
this week", so two otherwise-identical public-form submissions that
differ only in the session admin flag can end differently — here the
same submission is rejected as already-attended without the flag and
saved with it. -/
theorem admin_session_bypasses_weekly_limit :
    (∀ (nowSec : Nat) (today : Nat × Nat × Nat) (nowInstant : Int)
        (roster : String → Option (String × String)) (warnings : List WarningRec)
        (store : List AttRow) (sid : String),
      (check_attendance ⟨nowSec, today, nowInstant, true, roster, warnings⟩
          store sid false).already_attended = false)
    ∧ attendance_post cEnv [cRow1234] ("1234") ("Lee")
        = (PostResult.alreadyAttendedThisWeek, [cRow1234])
    ∧ (attendance_post cEnvAdmin [cRow1234] ("1234") ("Lee")).1 = PostResult.saved := by
  refine ⟨fun nowSec today nowInstant roster warnings store sid => ?_, by decide, by decide⟩
  simp only [check_attendance]
  split
  · rfl
  · split
    · rfl
    · split <;> simp

/-- Membership in the kept records of `classify_records`, for rows
whose timestamp has no space and does not parse. -/
theorem classify_records_keeps_malformed (cutoffOrd : Nat) :
    ∀ (l : List AttRow) (dels keeps : List AttRow),
      classify_records cutoffOrd l = some (dels, keeps) →
      ∀ r ∈ l, containsSpace r.attendDate = false → parseYMD r.attendDate = none →
        r ∈ keeps := by
  intro l
  induction l with
  | nil =>
    intro dels keeps h r hr
    simp at hr
  | cons a rest ih =>
    intro dels keeps h r hr hsp hpar
    rw [classify_records] at h
    rcases List.mem_cons.mp hr with rfl | hr'
    · rw [if_neg (by simp [hsp])] at h
      simp only [hpar] at h
      rcases hc : classify_records cutoffOrd rest with _ | ⟨ds, ks⟩
      · simp [hc] at h
      · simp only [hc, Option.some.injEq, Prod.mk.injEq] at h
        rw [← h.2]
        exact List.mem_cons_self _ _
    · by_cases hsp2 : containsSpace a.attendDate = true
      · rw [if_pos hsp2] at h
        rcases hp : parseYMD (datePart a.attendDate) with _ | ymd
        · simp [hp] at h
        · rcases hc : classify_records cutoffOrd rest with _ | ⟨ds, ks⟩
          · simp [hp, hc] at h
          · simp only [hp, hc] at h
            by_cases hlt : toOrdinal ymd < cutoffOrd
            · rw [if_pos hlt] at h
              simp only [Option.some.injEq, Prod.mk.injEq] at h
              rw [← h.2]
              exact ih ds ks hc r hr' hsp hpar
            · rw [if_neg hlt] at h
              simp only [Option.some.injEq, Prod.mk.injEq] at h
              rw [← h.2]
              exact List.mem_cons_of_mem _ (ih ds ks hc r hr' hsp hpar)
      · rw [if_neg hsp2] at h
        rcases hp : parseYMD a.attendDate with _ | ymd
        · simp only [hp] at h
          rcases hc : classify_records cutoffOrd rest with _ | ⟨ds, ks⟩
          · simp [hc] at h
          · simp only [hc, Option.some.injEq, Prod.mk.injEq] at h
            rw [← h.2]
            exact List.mem_cons_of_mem _ (ih ds ks hc r hr' hsp hpar)
        · simp only [hp] at h
          rcases hc : classify_records cutoffOrd rest with _ | ⟨ds, ks⟩
          · simp [hc] at h
          · simp only [hc] at h
            by_cases hlt : toOrdinal ymd < cutoffOrd
            · rw [if_pos hlt] at h
              simp only [Option.some.injEq, Prod.mk.injEq] at h
              rw [← h.2]
              exact ih ds ks hc r hr' hsp hpar
            · rw [if_neg hlt] at h
              simp only [Option.some.injEq, Prod.mk.injEq] at h
              rw [← h.2]
              exact List.mem_cons_of_mem _ (ih ds ks hc r hr' hsp hpar)

/-- C10: bulk deletion by cutoff date never removes a malformed record:
a stored record whose timestamp contains no space and does not parse as
YYYY-MM-DD is classified as kept, and when any other record aborts the
request the store is returned unchanged, so the record remains either
way. -/
theorem delete_before_date_keeps_malformed (dateStr : String) (store : List AttRow)
    (r : AttRow) (hr : r ∈ store) (hsp : containsSpace r.attendDate = false)
    (hpar : parseYMD r.attendDate = none) :
    r ∈ delete_before_date dateStr store := by
  rw [delete_before_date]
  rcases parseYMD dateStr with _ | cutoff
  · exact hr
  · dsimp only
    rcases hc : classify_records (toOrdinal cutoff) store with _ | ⟨dels, keeps⟩
    · exact hr
    · exact classify_records_keeps_malformed _ store dels keeps hc r hr hsp hpar

/-- Witness for `delete_before_date_keeps_malformed`: the record with
timestamp "oops" survives a bulk deletion with cutoff 2099-01-01. -/
theorem delete_before_date_keeps_malformed_witness :
    cBadRow ∈ delete_before_date ("2099-01-01") [cRow1234, cBadRow] :=
  delete_before_date_keeps_malformed ("2099-01-01") [cRow1234, cBadRow] cBadRow
    (by decide) (by decide) (by decide)

/-- Reading back a (date, period) pair right after saving a memo for it
always yields the saved text. -/
theorem get_save_period_memo (rows : List MemoRow) (date period text : String) :
    get_period_memo (save_period_memo rows date period text) date period = text := by
  induction rows with
  | nil => simp [save_period_memo, get_period_memo]
  | cons r rs ih =>
    by_cases hm : (r.date == date && r.period == period) = true
    · rw [save_period_memo, if_pos hm, get_period_memo, if_pos hm]
    · rw [save_period_memo, if_neg hm, get_period_memo, if_neg hm]
      exact ih

/-- Mismatch of a memo row key (x, y) against a queried key (d, p)
turns the filter predicate false. -/
theorem memoKeyMismatch {x y d p : String} (hne : ¬(d = x ∧ p = y)) :
    (x == d && y == p) = false := by
  by_cases h1 : x = d
  · by_cases h2 : y = p
    · exact absurd ⟨h1.symm, h2.symm⟩ hne
    · simp [h2]
  · simp [h1]

/-- Saving a memo for one (date, period) pair leaves the stored rows of
every other pair unchanged. -/
theorem save_period_memo_other_pairs (rows : List MemoRow) (date period text d p : String)
    (hne : ¬(d = date ∧ p = period)) :
    memoRowsFor (save_period_memo rows date period text) d p = memoRowsFor rows d p := by
  induction rows with
  | nil =>
    simp [save_period_memo, memoRowsFor, List.filter_cons, memoKeyMismatch hne]
  | cons r rs ih =>
    by_cases hm : (r.date == date && r.period == period) = true
    · rw [save_period_memo, if_pos hm]
      obtain ⟨hrd, hrp⟩ : r.date = date ∧ r.period = period := by simpa using hm
      have hne' : ¬(d = r.date ∧ p = r.period) := by rw [hrd, hrp]; exact hne
      simp [memoRowsFor, List.filter_cons, memoKeyMismatch hne']
    · rw [save_period_memo, if_neg hm]
      simp only [memoRowsFor, List.filter_cons] at ih ⊢
      cases hq : (r.date == d && r.period == p) <;> simp [hq, ih]

/-- When a (date, period) pair has at most one stored row, saving a
memo for it leaves it with exactly one stored row. -/
theorem save_period_memo_count (rows : List MemoRow) (date period text : String)
    (hone : (memoRowsFor rows date period).length ≤ 1) :
    (memoRowsFor (save_period_memo rows date period text) date period).length = 1 := by
  induction rows with
  | nil => simp [save_period_memo, memoRowsFor, List.filter_cons]
  | cons r rs ih =>
    by_cases hm : (r.date == date && r.period == period) = true
    · rw [save_period_memo, if_pos hm]
      have hcnt : (memoRowsFor rs date period).length = 0 := by
        simp [memoRowsFor, List.filter_cons, hm] at hone
        simpa [memoRowsFor] using hone
      obtain ⟨hrd, hrp⟩ : r.date = date ∧ r.period = period := by simpa using hm
      simp [memoRowsFor, List.filter_cons] at hcnt ⊢
      simp [hrd, hrp]
      exact hcnt
    · rw [save_period_memo, if_neg hm]
      rw [Bool.not_eq_true] at hm
      simp only [memoRowsFor, List.filter_cons, hm] at hone ⊢
      simp only [Bool.false_eq_true, if_false] at hone ⊢
      exact ih hone

/-- C8: the period-memo store has upsert semantics: starting from a
state with at most one row for a (date, period) pair, saving text t1
for the pair and reading it back yields t1; saving t2 on top leaves
exactly one row for the pair, whose text is t2; and the rows of every
other (date, period) pair are exactly the original ones. -/
theorem memo_upsert_spec (rows : List MemoRow) (date period t1 t2 : String)
    (hone : (memoRowsFor rows date period).length ≤ 1) :
    get_period_memo (save_period_memo rows date period t1) date period = t1
    ∧ (memoRowsFor
        (save_period_memo (save_period_memo rows date period t1) date period t2)
        date period).length = 1
    ∧ get_period_memo
        (save_period_memo (save_period_memo rows date period t1) date period t2)
        date period = t2
    ∧ ∀ d p, ¬(d = date ∧ p = period) →
        memoRowsFor
          (save_period_memo (save_period_memo rows date period t1) date period t2) d p
          = memoRowsFor rows d p := by
  refine ⟨get_save_period_memo rows date period t1, ?_, get_save_period_memo _ date period t2, ?_⟩
  · exact save_period_memo_count _ date period t2
      (le_of_eq (save_period_memo_count rows date period t1 hone))
  · intro d p hne
    rw [save_period_memo_other_pairs _ date period t2 d p hne,
      save_period_memo_other_pairs rows date period t1 d p hne]

/-- C2 counterexample: submitting the same (student, period, day)
check-in twice through the public form can create two rows.  Student
3123 bypasses the weekly limit, so both submissions succeed within the
same period of the same day and the store ends up holding two records
with the same (student, period, day) triple — the CSV writer
`save_attendance` appends unconditionally; the duplicate guard only
exists in the unused document-store insert `add_attendance`. -/
theorem duplicate_checkin_two_rows_cex :
    (attendance_post cEnv [] ("3123") ("Kim")).1 = PostResult.saved
    ∧ (attendance_post cEnv (attendance_post cEnv [] ("3123") ("Kim")).2
        ("3123") ("Kim")).1 = PostResult.saved
    ∧ ((attendance_post cEnv (attendance_post cEnv [] ("3123") ("Kim")).2
          ("3123") ("Kim")).2.filter (fun r =>
            r.studentId == ("3123") && r.periodText == ("2교시")
              && datePart r.attendDate == ("2025-05-16"))).length = 2 := by
  decide

/-- C2 amended: the document-store insert models.add_attendance is
idempotent — when the insert instant lies inside the queried day, a
second insert attempt with the same (student, period) on the same day
inserts nothing (no document id) and leaves the store exactly as the
first attempt left it. -/
theorem add_attendance_duplicate_noop (fsStore : List FsAttRecord)
    (nowInstant todayStart todayEnd : Int) (sid name seat ptext : String)
    (h1 : todayStart ≤ nowInstant) (h2 : nowInstant ≤ todayEnd) :
    add_attendance (add_attendance fsStore nowInstant todayStart todayEnd
        sid name seat ptext).2 nowInstant todayStart todayEnd sid name seat ptext
      = (none, (add_attendance fsStore nowInstant todayStart todayEnd
          sid name seat ptext).2) := by
  by_cases hdup : (fsStore.any (fun r =>
      r.student_id == sid && r.period == ptext
        && decide (todayStart ≤ r.date) && decide (r.date ≤ todayEnd))) = true
  · have hinner : add_attendance fsStore nowInstant todayStart todayEnd sid name seat ptext
        = (none, fsStore) := by
      rw [add_attendance, if_pos hdup]
    rw [hinner]
    exact hinner
  · have hinner : add_attendance fsStore nowInstant todayStart todayEnd sid name seat ptext
        = (some fsStore.length, fsStore ++ [⟨sid, name, seat, ptext, nowInstant⟩]) := by
      rw [add_attendance, if_neg hdup]
    rw [hinner]
    have hany : ((fsStore ++ [(⟨sid, name, seat, ptext, nowInstant⟩ : FsAttRecord)]).any
        (fun r => r.student_id == sid && r.period == ptext
          && decide (todayStart ≤ r.date) && decide (r.date ≤ todayEnd))) = true := by
      rw [List.any_append]
      simp [h1, h2]
    show add_attendance (fsStore ++ [⟨sid, name, seat, ptext, nowInstant⟩])
        nowInstant todayStart todayEnd sid name seat ptext
      = (none, fsStore ++ [⟨sid, name, seat, ptext, nowInstant⟩])
    rw [add_attendance, if_pos hany]

/-- Witness for `add_attendance_duplicate_noop` on an initially empty
collection at noon of a concrete day. -/
theorem add_attendance_duplicate_noop_witness :
    add_attendance (add_attendance [] 120 100 200 ("1234") ("Lee") ("B1") ("2교시")).2
        120 100 200 ("1234") ("Lee") ("B1") ("2교시")
      = (none, (add_attendance [] 120 100 200 ("1234") ("Lee") ("B1") ("2교시")).2) :=
  add_attendance_duplicate_noop [] 120 100 200 ("1234") ("Lee") ("B1") ("2교시")
    (by decide) (by decide)

/-- C4: the period resolver (a) maps every time of day inside the
excluded fourth-period interval 12:05-12:30 — in particular every time
strictly inside it — to 0 even though the time lies inside a configured
interval, (b) maps every time outside all configured intervals to 0,
and (c) maps a time inside the half-open interval of any non-excluded
period to the number of that period. -/
theorem period_resolver_spec (t : Nat) :
    (725 ≤ t → t < 750 → get_current_period t = 0)
    ∧ ((∀ p sh sm eh em, (p, sh, sm, eh, em) ∈ PERIOD_SCHEDULE →
          ¬(toMin sh sm ≤ t ∧ t < toMin eh em)) → get_current_period t = 0)
    ∧ (∀ p sh sm eh em, (p, sh, sm, eh, em) ∈ PERIOD_SCHEDULE → p ≠ 4 →
          toMin sh sm ≤ t → t < toMin eh em → get_current_period t = p) := by
  refine ⟨?_, ?_, ?_⟩
  · intro h1 h2
    simp only [get_current_period, PERIOD_SCHEDULE, findPeriod, toMin]
    norm_num
    split_ifs <;> omega
  · intro h
    have h1 := h 1 7 50 9 15 (by simp [PERIOD_SCHEDULE])
    have h2 := h 2 9 15 10 40 (by simp [PERIOD_SCHEDULE])
    have h3 := h 3 10 40 12 5 (by simp [PERIOD_SCHEDULE])
    have h4 := h 4 12 5 12 30 (by simp [PERIOD_SCHEDULE])
    have h5 := h 5 12 30 14 25 (by simp [PERIOD_SCHEDULE])
    have h6 := h 6 14 25 15 50 (by simp [PERIOD_SCHEDULE])
    simp only [toMin] at h1 h2 h3 h4 h5 h6
    simp only [get_current_period, PERIOD_SCHEDULE, findPeriod, toMin]
    norm_num
    split_ifs <;> omega
  · intro p sh sm eh em hmem hp4 hle hlt
    simp only [PERIOD_SCHEDULE, List.mem_cons, List.mem_singleton,
      Prod.mk.injEq, List.not_mem_nil, or_false] at hmem
    simp only [get_current_period, PERIOD_SCHEDULE, findPeriod, toMin]
    norm_num
    rcases hmem with ⟨rfl, rfl, rfl, rfl, rfl⟩ | ⟨rfl, rfl, rfl, rfl, rfl⟩
      | ⟨rfl, rfl, rfl, rfl, rfl⟩ | ⟨rfl, rfl, rfl, rfl, rfl⟩
      | ⟨rfl, rfl, rfl, rfl, rfl⟩ | ⟨rfl, rfl, rfl, rfl, rfl⟩ <;>
      simp only [toMin] at hle hlt <;> norm_num at hle hlt ⊢ <;> split_ifs <;> omega

/-- Witness for `period_resolver_spec`: 12:10 (inside the excluded
interval) resolves to no period, 16:40 (outside every interval)
resolves to no period, and 10:00 resolves to period 2. -/
theorem period_resolver_spec_witness :
    get_current_period 730 = 0 ∧ get_current_period 1000 = 0 ∧ get_current_period 600 = 2 := by
  refine ⟨(period_resolver_spec 730).1 (by decide) (by decide),
    (period_resolver_spec 1000).2.1 ?_,
    (period_resolver_spec 600).2.2 2 9 15 10 40 (by decide) (by decide) (by decide) (by decide)⟩
  intro p sh sm eh em hmem
  fin_cases hmem <;> simp [toMin]

/-- The warned verdict of the eligibility check equals the result of
the warning-store query, for a non-overridden, non-distinguished-digit
student. -/
theorem check_attendance_is_warned_eq (env : Env) (store : List AttRow) (sid : String)
    (h3 : startsWithThree sid = false) :
    (check_attendance env store sid false).is_warned
      = (is_student_warned env.warnings env.nowInstant sid).1 := by
  simp only [check_attendance, h3, Bool.false_eq_true, if_false]
  split
  · rename_i hw
    rw [hw]
  · rename_i hw
    rw [Bool.not_eq_true] at hw
    rw [hw]
    split <;> rfl

/-- C6: a warning blocks a non-overridden, non-distinguished-digit
check-in (the eligibility check returns the warned verdict) if and only
if some stored warning for the student is in effect: its active flag is
set and its expiry is strictly in the future.  In particular an expired
or soft-deactivated warning never yields the warned verdict. -/
theorem warning_blocks_iff_in_effect (env : Env) (store : List AttRow) (sid : String)
    (h3 : startsWithThree sid = false) :
    (check_attendance env store sid false).is_warned = true ↔
      ∃ w ∈ env.warnings, w.student_id = sid ∧ env.nowInstant < w.expiry_date
        ∧ w.is_active = true := by
  rw [check_attendance_is_warned_eq env store sid h3]
  rw [is_student_warned]
  rcases hf : env.warnings.find? (fun w =>
      w.student_id == sid && decide (env.nowInstant < w.expiry_date) && w.is_active) with _ | w
  · rw [hf]
    simp only [Bool.false_eq_true, false_iff]
    rintro ⟨w, hw, hid, hexp, hact⟩
    have := List.find?_eq_none.mp hf w hw
    simp [hid, hexp, hact] at this
  · rw [hf]
    simp only [true_iff]
    refine ⟨w, List.mem_of_find?_eq_some hf, ?_⟩
    have := List.find?_some hf
    simp only [Bool.and_eq_true, beq_iff_eq, decide_eq_true_eq] at this
    exact ⟨this.1.1, this.1.2, this.2⟩

/-- Witness for `warning_blocks_iff_in_effect`: student 1234 with an
active unexpired warning gets the warned verdict, and the same student
with the warning expired (or soft-deactivated) does not. -/
theorem warning_blocks_iff_in_effect_witness :
    (check_attendance { cEnv with warnings := [cWarn1234] } [] ("1234") false).is_warned = true
    ∧ ¬((check_attendance
          { cEnv with warnings := [{ cWarn1234 with expiry_date := 50 }] }
          [] ("1234") false).is_warned = true)
    ∧ ¬((check_attendance
          { cEnv with warnings := [{ cWarn1234 with is_active := false }] }
          [] ("1234") false).is_warned = true) := by
  refine ⟨?_, ?_, ?_⟩
  · exact (warning_blocks_iff_in_effect { cEnv with warnings := [cWarn1234] } [] ("1234")
      (by decide)).mpr ⟨cWarn1234, by simp, by decide, by decide, by decide⟩
  · intro h
    have := (warning_blocks_iff_in_effect
      { cEnv with warnings := [{ cWarn1234 with expiry_date := 50 }] } [] ("1234")
      (by decide)).mp h
    rcases this with ⟨w, hw, hid, hexp, hact⟩
    simp only [List.mem_singleton] at hw
    rw [hw] at hexp
    revert hexp
    decide
  · intro h
    have := (warning_blocks_iff_in_effect
      { cEnv with warnings := [{ cWarn1234 with is_active := false }] } [] ("1234")
      (by decide)).mp h
    rcases this with ⟨w, hw, hid, hexp, hact⟩
    simp only [List.mem_singleton] at hw
    rw [hw] at hact
    revert hact
    decide

/-- One scan step never decreases the weekly attendance count. -/
theorem scanRow_weekly_le (sid : String) (monday : Nat) (st : ScanSt) (r : AttRow) :
    st.weekly ≤ (scanRow sid monday st r).weekly := by
  rw [scanRow]
  split
  · rcases parseYMD (datePart r.attendDate) with _ | ymd
    · exact le_refl _
    · show st.weekly ≤ (if monday ≤ toOrdinal ymd ∧ weekdayOf (toOrdinal ymd) ≤ 4
        then st.weekly + 1 else st.weekly)
      split <;> omega
  · exact le_refl _

/-- Folding the scan never decreases the weekly attendance count. -/
theorem foldl_scanRow_weekly_le (sid : String) (monday : Nat) :
    ∀ (l : List AttRow) (st : ScanSt), st.weekly ≤ (l.foldl (scanRow sid monday) st).weekly := by
  intro l
  induction l with
  | nil => intro st; exact le_refl _
  | cons a rest ih =>
    intro st
    rw [List.foldl_cons]
    exact le_trans (scanRow_weekly_le sid monday st a) (ih _)

/-- A stored row of the student whose parsed date lies on or after this
Monday of the current week with weekday Monday..Friday makes the scanned weekly
count positive. -/
theorem foldl_scanRow_weekly_pos (sid : String) (monday : Nat) (l : List AttRow)
    (r : AttRow) (hr : r ∈ l) (hsid : r.studentId = sid) (ymd : Nat × Nat × Nat)
    (hp : parseYMD (datePart r.attendDate) = some ymd)
    (hmon : monday ≤ toOrdinal ymd) (hwd : weekdayOf (toOrdinal ymd) ≤ 4) :
    ∀ st : ScanSt, 1 ≤ (l.foldl (scanRow sid monday) st).weekly := by
  induction l with
  | nil => simp at hr
  | cons a rest ih =>
    intro st
    rw [List.foldl_cons]
    rcases List.mem_cons.mp hr with rfl | hr'
    · have hstep : (scanRow sid monday st r).weekly = st.weekly + 1 := by
        simp [scanRow, hsid, hp, hmon, hwd]
      have := foldl_scanRow_weekly_le sid monday rest (scanRow sid monday st r)
      omega
    · exact ih hr' _

/-- An existing this-week Mon-Fri record makes the eligibility check
report "already attended this week", for a public (non-admin) session
and a non-overridden, non-distinguished-digit, unwarned student. -/
theorem check_attendance_already_of_week_record (env : Env) (store : List AttRow)
    (sid : String) (hadm : env.sessionAdmin = false)
    (h3 : startsWithThree sid = false)
    (hw : (is_student_warned env.warnings env.nowInstant sid).1 = false)
    (hex : ∃ r ∈ store, r.studentId = sid ∧ ∃ ymd,
      parseYMD (datePart r.attendDate) = some ymd ∧
      mondayOrdOf env ≤ toOrdinal ymd ∧ weekdayOf (toOrdinal ymd) ≤ 4) :
    (check_attendance env store sid false).already_attended = true := by
  obtain ⟨r, hr, hsid, ymd, hp, hmon, hwd⟩ := hex
  have hweekly := foldl_scanRow_weekly_pos sid (mondayOrdOf env) store r hr hsid ymd
    hp hmon hwd ⟨none, 0⟩
  simp only [check_attendance, h3, Bool.false_eq_true, if_false, hw, ge_iff_le]
  rw [if_pos ⟨hweekly, hadm⟩]

/-- C1 counterexample: the claim quantifies over every student, but a
student whose id has the distinguished leading digit "3" is exempt from
the weekly limit: although the store already holds a this-week Mon-Fri
record of student 3123, a further non-overridden public submission is
accepted and a second record is appended. -/
theorem weekly_limit_not_universal_cex :
    (∃ r ∈ [cRow3123], r.studentId = ("3123") ∧ ∃ ymd,
        parseYMD (datePart r.attendDate) = some ymd ∧
        mondayOrdOf cEnv ≤ toOrdinal ymd ∧ weekdayOf (toOrdinal ymd) ≤ 4)
    ∧ cEnv.sessionAdmin = false
    ∧ (attendance_post cEnv [cRow3123] ("3123") ("Kim")).1 = PostResult.saved
    ∧ (attendance_post cEnv [cRow3123] ("3123") ("Kim")).2.length = 2 := by
  refine ⟨⟨cRow3123, by decide, by decide, (2025, 5, 12), by decide, by decide, by decide⟩,
    by decide, by decide, by decide⟩

/-- C1 amended: for a public-session (admin flag unset) submission by a
student whose stripped id does not start with "3" and has no in-effect
warning, an existing record with date on or after the Monday of the current week
and weekday Monday..Friday means the submission never appends a record,
and — whenever it passes the period, capacity, roster and name gates —
it is rejected precisely with the "already attended this week" reason. -/
theorem weekly_limit_rejects_repeat_checkin (env : Env) (store : List AttRow)
    (sidF nameF : String) (hadm : env.sessionAdmin = false)
    (h3 : startsWithThree (pyStrip sidF) = false)
    (hw : (is_student_warned env.warnings env.nowInstant (pyStrip sidF)).1 = false)
    (hex : ∃ r ∈ store, r.studentId = pyStrip sidF ∧ ∃ ymd,
      parseYMD (datePart r.attendDate) = some ymd ∧
      mondayOrdOf env ≤ toOrdinal ymd ∧ weekdayOf (toOrdinal ymd) ≤ 4) :
    (attendance_post env store sidF nameF).2 = store
    ∧ (attendance_post env store sidF nameF).1 ≠ PostResult.saved
    ∧ (∀ rosterName seat, get_current_period (env.nowSec / 60) ≠ 0 →
        get_current_period_attendance_count env store < 35 →
        env.roster (pyStrip sidF) = some (rosterName, seat) →
        removeSpaces rosterName = removeSpaces (pyStrip nameF) →
        (attendance_post env store sidF nameF).1 = PostResult.alreadyAttendedThisWeek) := by
  have halready := check_attendance_already_of_week_record env store (pyStrip sidF)
    hadm h3 hw hex
  by_cases hcp : (get_current_period (env.nowSec / 60) == 0) = true
  · rw [attendance_post, if_pos hcp]
    refine ⟨rfl, by simp, ?_⟩
    intro rosterName seat hcp2 _ _ _
    exact absurd (beq_iff_eq.mp hcp) hcp2
  · rw [attendance_post, if_neg hcp]
    by_cases hcap : get_current_period_attendance_count env store ≥ 35
    · rw [if_pos hcap]
      refine ⟨rfl, by simp, ?_⟩
      intro rosterName seat _ hcap2 _ _
      omega
    · rw [if_neg hcap]
      dsimp only
      rcases hro : env.roster (pyStrip sidF) with _ | ⟨rn, seat⟩
      · dsimp only
        refine ⟨rfl, by simp, ?_⟩
        intro rosterName seat _ _ hro2 _
        exact Option.noConfusion hro2
      · dsimp only
        by_cases hname : removeSpaces rn ≠ removeSpaces (pyStrip nameF)
        · rw [if_pos hname]
          refine ⟨rfl, by simp, ?_⟩
          intro rosterName seat2 _ _ hro2 hname2
          simp only [Option.some.injEq, Prod.mk.injEq] at hro2
          exact absurd (by rw [hro2.1]; exact hname2) hname
        · rw [if_neg hname, if_pos halready]
          exact ⟨rfl, by simp, fun _ _ _ _ _ _ => rfl⟩

/-- Witness for `weekly_limit_rejects_repeat_checkin`: student 1234,
who attended on Monday 2025-05-12, is rejected as already-attended on
Friday of the same week and the store is unchanged. -/
theorem weekly_limit_rejects_repeat_checkin_witness :
    (attendance_post cEnv [cRow1234] ("1234") ("Lee")).1
      = PostResult.alreadyAttendedThisWeek
    ∧ (attendance_post cEnv [cRow1234] ("1234") ("Lee")).2 = [cRow1234] := by
  have h := weekly_limit_rejects_repeat_checkin cEnv [cRow1234] ("1234") ("Lee")
    (by decide) (by decide) (by decide)
    ⟨cRow1234, by decide, by decide, (2025, 5, 12), by decide, by decide, by decide⟩
  exact ⟨h.2.2 ("Lee") ("B1") (by decide) (by decide) (by decide) (by decide), h.1⟩

/-- When the scan ends with no latest attendance, none of the
scanned rows of the student had a parseable date. -/
theorem foldl_scanRow_latest_none (sid : String) (monday : Nat) :
    ∀ (l : List AttRow) (st : ScanSt),
      (l.foldl (scanRow sid monday) st).latest = none →
      st.latest = none
        ∧ ∀ r ∈ l, r.studentId = sid → parseYMD (datePart r.attendDate) = none := by
  intro l
  induction l with
  | nil =>
    intro st h
    exact ⟨h, by simp⟩
  | cons a rest ih =>
    intro st h
    rw [List.foldl_cons] at h
    obtain ⟨h1, h2⟩ := ih _ h
    by_cases hsid : (a.studentId == sid) = true
    · rcases hp : parseYMD (datePart a.attendDate) with _ | ymd
      · have hsc : scanRow sid monday st a = st := by simp [scanRow, hsid, hp]
        rw [hsc] at h1
        refine ⟨h1, ?_⟩
        intro r hr hrs
        rcases List.mem_cons.mp hr with rfl | hr'
        · exact hp
        · exact h2 r hr' hrs
      · exfalso
        rcases hst : st.latest with _ | ⟨lo, ls⟩
        · have hlat : (scanRow sid monday st a).latest
              = some (toOrdinal ymd, datePart a.attendDate) := by
            simp [scanRow, hsid, hp, hst]
          rw [hlat] at h1
          exact Option.noConfusion h1
        · by_cases hcmp : lo < toOrdinal ymd
          · have hlat : (scanRow sid monday st a).latest
                = some (toOrdinal ymd, datePart a.attendDate) := by
              simp [scanRow, hsid, hp, hst, hcmp]
            rw [hlat] at h1
            exact Option.noConfusion h1
          · have hlat : (scanRow sid monday st a).latest = some (lo, ls) := by
              simp [scanRow, hsid, hp, hst, hcmp]
            rw [hlat] at h1
            exact Option.noConfusion h1
    · have hsc : scanRow sid monday st a = st := by simp [scanRow, hsid]
      rw [hsc] at h1
      refine ⟨h1, ?_⟩
      intro r hr hrs
      rcases List.mem_cons.mp hr with rfl | hr'
      · exact absurd (by simp [hrs]) hsid
      · exact h2 r hr' hrs

/-- When the scan ends with latest attendance (o, s), the pair either
came from the initial state or from a scanned row of the student whose
date part is s and parses to ordinal o, the initial latest is at most
o, and every parseable scanned row of the student has ordinal at most
o. -/
theorem foldl_scanRow_latest_some (sid : String) (monday : Nat) :
    ∀ (l : List AttRow) (st : ScanSt) (o : Nat) (s : String),
      (l.foldl (scanRow sid monday) st).latest = some (o, s) →
      (st.latest = some (o, s) ∨
        ∃ r ∈ l, r.studentId = sid ∧ datePart r.attendDate = s ∧
          ∃ ymd, parseYMD (datePart r.attendDate) = some ymd ∧ toOrdinal ymd = o)
      ∧ (∀ lo ls, st.latest = some (lo, ls) → lo ≤ o)
      ∧ (∀ r ∈ l, r.studentId = sid →
          ∀ ymd, parseYMD (datePart r.attendDate) = some ymd → toOrdinal ymd ≤ o) := by
  intro l
  induction l with
  | nil =>
    intro st o s h
    simp only [List.foldl_nil] at h
    refine ⟨Or.inl h, ?_, by simp⟩
    intro lo ls hst
    rw [h] at hst
    simp only [Option.some.injEq, Prod.mk.injEq] at hst
    exact le_of_eq hst.1.symm
  | cons a rest ih =>
    intro st o s h
    rw [List.foldl_cons] at h
    obtain ⟨hor, hmax, hall⟩ := ih (scanRow sid monday st a) o s h
    by_cases hsid : (a.studentId == sid) = true
    · rcases hp : parseYMD (datePart a.attendDate) with _ | ymd
      · have hsc : scanRow sid monday st a = st := by simp [scanRow, hsid, hp]
        rw [hsc] at hor hmax
        refine ⟨?_, hmax, ?_⟩
        · rcases hor with h0 | ⟨r, hr, hrest⟩
          · exact Or.inl h0
          · exact Or.inr ⟨r, List.mem_cons_of_mem _ hr, hrest⟩
        · intro r hr hrs ymd' hp'
          rcases List.mem_cons.mp hr with rfl | hr'
          · rw [hp] at hp'
            exact Option.noConfusion hp'
          · exact hall r hr' hrs ymd' hp'
      · have hsidP : a.studentId = sid := by simpa using hsid
        rcases hst : st.latest with _ | ⟨lo, ls⟩
        · have hlat : (scanRow sid monday st a).latest
              = some (toOrdinal ymd, datePart a.attendDate) := by
            simp [scanRow, hsid, hp, hst]
          have hoa : toOrdinal ymd ≤ o := hmax _ _ hlat
          refine ⟨?_, ?_, ?_⟩
          · rcases hor with h0 | ⟨r, hr, hrest⟩
            · rw [hlat] at h0
              simp only [Option.some.injEq, Prod.mk.injEq] at h0
              exact Or.inr ⟨a, List.mem_cons_self _ _, hsidP, h0.2, ymd, hp, h0.1⟩
            · exact Or.inr ⟨r, List.mem_cons_of_mem _ hr, hrest⟩
          · intro lo2 ls2 hst2
            exact Option.noConfusion hst2
          · intro r hr hrs ymd' hp'
            rcases List.mem_cons.mp hr with rfl | hr'
            · have h' : ymd = ymd' := Option.some_injective _ (hp.symm.trans hp')
              rw [← h']
              exact hoa
            · exact hall r hr' hrs ymd' hp'
        · by_cases hcmp : lo < toOrdinal ymd
          · have hlat : (scanRow sid monday st a).latest
                = some (toOrdinal ymd, datePart a.attendDate) := by
              simp [scanRow, hsid, hp, hst, hcmp]
            have hoa : toOrdinal ymd ≤ o := hmax _ _ hlat
            refine ⟨?_, ?_, ?_⟩
            · rcases hor with h0 | ⟨r, hr, hrest⟩
              · rw [hlat] at h0
                simp only [Option.some.injEq, Prod.mk.injEq] at h0
                exact Or.inr ⟨a, List.mem_cons_self _ _, hsidP, h0.2, ymd, hp, h0.1⟩
              · exact Or.inr ⟨r, List.mem_cons_of_mem _ hr, hrest⟩
            · intro lo2 ls2 hst2
              simp only [Option.some.injEq, Prod.mk.injEq] at hst2
              obtain ⟨h1', h2'⟩ := hst2
              omega
            · intro r hr hrs ymd' hp'
              rcases List.mem_cons.mp hr with rfl | hr'
              · have h' : ymd = ymd' := Option.some_injective _ (hp.symm.trans hp')
                rw [← h']
                exact hoa
              · exact hall r hr' hrs ymd' hp'
          · have hlat : (scanRow sid monday st a).latest = some (lo, ls) := by
              simp [scanRow, hsid, hp, hst, hcmp]
            have hlo : lo ≤ o := hmax _ _ hlat
            refine ⟨?_, ?_, ?_⟩
            · rcases hor with h0 | ⟨r, hr, hrest⟩
              · rw [hlat] at h0
                exact Or.inl h0
              · exact Or.inr ⟨r, List.mem_cons_of_mem _ hr, hrest⟩
            · intro lo2 ls2 hst2
              simp only [Option.some.injEq, Prod.mk.injEq] at hst2
              obtain ⟨h1', h2'⟩ := hst2
              omega
            · intro r hr hrs ymd' hp'
              rcases List.mem_cons.mp hr with rfl | hr'
              · have h' : ymd = ymd' := Option.some_injective _ (hp.symm.trans hp')
                rw [← h']
                omega
              · exact hall r hr' hrs ymd' hp'
    · have hsc : scanRow sid monday st a = st := by simp [scanRow, hsid]
      rw [hsc] at hor hmax
      refine ⟨?_, hmax, ?_⟩
      · rcases hor with h0 | ⟨r, hr, hrest⟩
        · exact Or.inl h0
        · exact Or.inr ⟨r, List.mem_cons_of_mem _ hr, hrest⟩
      · intro r hr hrs ymd' hp'
        rcases List.mem_cons.mp hr with rfl | hr'
        · exact absurd (by simp [hrs]) hsid
        · exact hall r hr' hrs ymd' hp'

/-- C7 counterexample: the eligibility check does not return the most
recent prior attendance date in every outcome.  Student 1234 has a
prior parseable record, yet the admin-overridden call returns no last
attendance date at all (the override, distinguished-digit and warned
branches all return None). -/
theorem last_attendance_not_all_outcomes_cex :
    (∃ r ∈ [cRow1234], r.studentId = ("1234")
        ∧ parseYMD (datePart r.attendDate) = some (2025, 5, 12))
    ∧ (check_attendance cEnv [cRow1234] ("1234") true).last_attendance_date = none :=
  ⟨⟨cRow1234, by decide, by decide, by decide⟩, by decide⟩

/-- C7 amended: on the weekly-check path — override unset, identifier
not starting with "3", no in-effect warning — when the student has at
least one prior record with a parseable date, the eligibility check
returns (in both the eligible and the already-attended outcome) the
date part of a prior record of the student that is most recent: its
parsed date is maximal among all parseable records of the student. -/
theorem last_attendance_date_weekly_path (env : Env) (store : List AttRow) (sid : String)
    (h3 : startsWithThree sid = false)
    (hw : (is_student_warned env.warnings env.nowInstant sid).1 = false)
    (hex : ∃ r ∈ store, r.studentId = sid ∧ (parseYMD (datePart r.attendDate)).isSome = true) :
    ∃ r ∈ store, r.studentId = sid ∧
      (check_attendance env store sid false).last_attendance_date
        = some (datePart r.attendDate) ∧
      ∃ ymd, parseYMD (datePart r.attendDate) = some ymd ∧
        ∀ r2 ∈ store, r2.studentId = sid →
          ∀ ymd2, parseYMD (datePart r2.attendDate) = some ymd2 →
            toOrdinal ymd2 ≤ toOrdinal ymd := by
  have hlast : (check_attendance env store sid false).last_attendance_date
      = (store.foldl (scanRow sid (mondayOrdOf env)) ⟨none, 0⟩).latest.map
          (fun p => p.2) := by
    simp only [check_attendance, h3, Bool.false_eq_true, if_false, hw]
    split <;> rfl
  rcases hL : (store.foldl (scanRow sid (mondayOrdOf env)) ⟨none, 0⟩).latest with _ | ⟨o, s⟩
  · exfalso
    obtain ⟨_, hall⟩ := foldl_scanRow_latest_none sid (mondayOrdOf env) store ⟨none, 0⟩ hL
    obtain ⟨r, hr, hsid, hsome⟩ := hex
    rw [hall r hr hsid] at hsome
    exact Bool.noConfusion hsome
  · obtain ⟨hor, _, hall⟩ := foldl_scanRow_latest_some sid (mondayOrdOf env) store
      ⟨none, 0⟩ o s hL
    rcases hor with hst0 | ⟨r, hr, hsid, hdp, ymd, hp, ho⟩
    · exact absurd hst0 (by simp)
    · refine ⟨r, hr, hsid, ?_, ymd, hp, ?_⟩
      · rw [hlast, hL]
        simp [hdp]
      · intro r2 hr2 hsid2 ymd2 hp2
        have := hall r2 hr2 hsid2 ymd2 hp2
        rw [ho]
        exact this

/-- Witness for `last_attendance_date_weekly_path`: student 1234 with
the single prior record of Monday 2025-05-12 gets that date back. -/
theorem last_attendance_date_weekly_path_witness :
    ∃ r ∈ [cRow1234], r.studentId = ("1234") ∧
      (check_attendance cEnv [cRow1234] ("1234") false).last_attendance_date
        = some (datePart r.attendDate) ∧
      ∃ ymd, parseYMD (datePart r.attendDate) = some ymd ∧
        ∀ r2 ∈ [cRow1234], r2.studentId = ("1234") →
          ∀ ymd2, parseYMD (datePart r2.attendDate) = some ymd2 →
            toOrdinal ymd2 ≤ toOrdinal ymd :=
  last_attendance_date_weekly_path cEnv [cRow1234] ("1234") (by decide) (by decide)
    ⟨cRow1234, by decide, by decide, by decide⟩

/-- Witness for `memo_upsert_spec` at a concrete memo store. -/
theorem memo_upsert_spec_witness :
    get_period_memo
      (save_period_memo [⟨("2025-05-16"), ("2교시"), ("old")⟩] ("2025-05-16") ("2교시") ("t1"))
      ("2025-05-16") ("2교시") = ("t1")
    ∧ (memoRowsFor
        (save_period_memo
          (save_period_memo [⟨("2025-05-16"), ("2교시"), ("old")⟩] ("2025-05-16") ("2교시") ("t1"))
          ("2025-05-16") ("2교시") ("t2"))
        ("2025-05-16") ("2교시")).length = 1 := by
  have h := memo_upsert_spec [⟨("2025-05-16"), ("2교시"), ("old")⟩]
    ("2025-05-16") ("2교시") ("t1") ("t2") (by decide)
  exact ⟨h.1, h.2.1⟩
